import Mathlib

/-!
Verification of the event core of `go-nostr` (`event.go`): canonical
serialization, identifier derivation (SHA-256), BIP-340-style signing and
verification.  Go byte slices are modelled as `List Nat` with values below
256, Go strings as Lean `String`, and machine integers as `Int`/`Nat`.
-/

set_option maxRecDepth 10000

namespace Nostr

/-! ### Byte-sequence helpers -/

/-- Big-endian byte encoding of a natural number into `len` bytes
(the low `8*len` bits, as Go's `PutUint32`/big-int fill do). -/
def bytesBE : Nat → Nat → List Nat
  | 0, _ => []
  | len + 1, x => bytesBE len (x / 256) ++ [x % 256]

/-- Big-endian interpretation of a byte sequence as a natural number. -/
def toNatBE (bs : List Nat) : Nat :=
  bs.foldl (fun acc b => acc * 256 + b) 0

theorem length_bytesBE (len x : Nat) : (bytesBE len x).length = len := by
  induction len generalizing x with
  | zero => rfl
  | succ n ih => simp [bytesBE, ih]

theorem bytesBE_lt (len x : Nat) : ∀ b ∈ bytesBE len x, b < 256 := by
  induction len generalizing x with
  | zero => intro b hb; simp [bytesBE] at hb
  | succ n ih =>
    intro b hb
    simp only [bytesBE, List.mem_append, List.mem_singleton] at hb
    rcases hb with h | h
    · exact ih _ b h
    · subst h; exact Nat.mod_lt _ (by norm_num)

theorem toNatBE_append_singleton (bs : List Nat) (b : Nat) :
    toNatBE (bs ++ [b]) = toNatBE bs * 256 + b := by
  simp [toNatBE, List.foldl_append]

theorem toNatBE_bytesBE (len x : Nat) : toNatBE (bytesBE len x) = x % 256 ^ len := by
  induction len generalizing x with
  | zero => simp [bytesBE, toNatBE, Nat.mod_one]
  | succ n ih =>
    rw [bytesBE, toNatBE_append_singleton, ih]
    have hp : (256 : Nat) ^ (n + 1) = 256 * 256 ^ n := by ring
    rw [hp]
    have h1 : x % (256 * 256 ^ n) / 256 = x / 256 % 256 ^ n :=
      Nat.mod_mul_right_div_self x 256 (256 ^ n)
    have h2 : x % (256 * 256 ^ n) % 256 = x % 256 :=
      Nat.mod_mod_of_dvd x ⟨256 ^ n, rfl⟩
    have h3 := Nat.div_add_mod (x % (256 * 256 ^ n)) 256
    omega

/-! ### Hex encoding and decoding (Go `encoding/hex`) -/

/-- Lower-case hex digit for a nibble, as Go's `hex.EncodeToString` uses. -/
def nibbleChar (v : Nat) : Char :=
  if v < 10 then Char.ofNat (48 + v) else Char.ofNat (87 + v)

/-- Go `hex.EncodeToString`: two lower-case hex digits per byte. -/
def hexEncodeChars (bs : List Nat) : List Char :=
  bs.foldr (fun b acc => nibbleChar (b / 16 % 16) :: nibbleChar (b % 16) :: acc) []

def hexEncode (bs : List Nat) : String := ⟨hexEncodeChars bs⟩

/-- Value of a hex digit (Go `hex` accepts both cases); `none` when the
character is not a hex digit. -/
def hexDigitVal (c : Char) : Option Nat :=
  if '0' ≤ c ∧ c ≤ '9' then some (c.toNat - 48)
  else if 'a' ≤ c ∧ c ≤ 'f' then some (c.toNat - 87)
  else if 'A' ≤ c ∧ c ≤ 'F' then some (c.toNat - 55)
  else none

/-- Go `hex.DecodeString` on the character list: pairs of hex digits,
failing on a non-digit or an odd length. -/
def hexDecodeChars : List Char → Option (List Nat)
  | [] => some []
  | [_] => none
  | c1 :: c2 :: rest =>
    match hexDigitVal c1, hexDigitVal c2, hexDecodeChars rest with
    | some h, some l, some bs => some ((h * 16 + l) :: bs)
    | _, _, _ => none

def hexDecode (s : String) : Option (List Nat) := hexDecodeChars s.data

theorem hexDigitVal_nibbleChar (v : Nat) (h : v < 16) :
    hexDigitVal (nibbleChar v) = some v := by
  interval_cases v <;> rfl

theorem hexDecode_hexEncode (bs : List Nat) (h : ∀ b ∈ bs, b < 256) :
    hexDecode (hexEncode bs) = some bs := by
  rw [hexEncode, hexDecode]
  show hexDecodeChars (hexEncodeChars bs) = some bs
  induction bs with
  | nil => rfl
  | cons b rest ih =>
    have hb : b < 256 := h b (List.mem_cons_self _ _)
    have hrest := ih (fun x hx => h x (List.mem_cons_of_mem _ hx))
    have h1 : b / 16 % 16 < 16 := Nat.mod_lt _ (by norm_num)
    have h2 : b % 16 < 16 := Nat.mod_lt _ (by norm_num)
    rw [hexEncodeChars, List.foldr_cons]
    show hexDecodeChars (_ :: _ :: hexEncodeChars rest) = _
    rw [hexDecodeChars, hexDigitVal_nibbleChar _ h1, hexDigitVal_nibbleChar _ h2, hrest]
    have hval : b / 16 % 16 * 16 + b % 16 = b := by
      have : b / 16 < 16 := by omega
      rw [Nat.mod_eq_of_lt this]
      omega
    simp only []
    rw [hval]

theorem length_hexEncodeChars (bs : List Nat) :
    (hexEncodeChars bs).length = 2 * bs.length := by
  induction bs with
  | nil => rfl
  | cons b rest ih => simp [hexEncodeChars, List.foldr_cons] at ih ⊢; omega

/-! ### UTF-8 encoding (Go strings are UTF-8 byte sequences) -/

/-- Standard UTF-8 encoding of one Unicode scalar value. -/
def utf8Char (c : Char) : List Nat :=
  let n := c.toNat
  if n < 0x80 then [n]
  else if n < 0x800 then
    [0xC0 + n / 64, 0x80 + n % 64]
  else if n < 0x10000 then
    [0xE0 + n / 4096, 0x80 + n / 64 % 64, 0x80 + n % 64]
  else
    [0xF0 + n / 262144, 0x80 + n / 4096 % 64, 0x80 + n / 64 % 64, 0x80 + n % 64]

/-- UTF-8 bytes of a string (the `[]byte` view of a Go string). -/
def utf8Encode (s : String) : List Nat :=
  s.data.foldr (fun c acc => utf8Char c ++ acc) []

/-! ### SHA-256 (Go `crypto/sha256`, implemented from FIPS 180-4) -/

/-- Truncation to a 32-bit word. -/
def w32 (x : Nat) : Nat := x % 4294967296

/-- Right rotation of a 32-bit word. -/
def rotr (n x : Nat) : Nat := w32 ((x >>> n) ||| (x <<< (32 - n)))

def bigSigma0 (x : Nat) : Nat := rotr 2 x ^^^ rotr 13 x ^^^ rotr 22 x
def bigSigma1 (x : Nat) : Nat := rotr 6 x ^^^ rotr 11 x ^^^ rotr 25 x
def smallSigma0 (x : Nat) : Nat := rotr 7 x ^^^ rotr 18 x ^^^ (x >>> 3)
def smallSigma1 (x : Nat) : Nat := rotr 17 x ^^^ rotr 19 x ^^^ (x >>> 10)
def chFn (x y z : Nat) : Nat := (x &&& y) ^^^ ((4294967295 ^^^ x) &&& z)
def majFn (x y z : Nat) : Nat := (x &&& y) ^^^ (x &&& z) ^^^ (y &&& z)

def shaK : List Nat :=
  [1116352408, 1899447441, 3049323471, 3921009573,
   961987163, 1508970993, 2453635748, 2870763221,
   3624381080, 310598401, 607225278, 1426881987,
   1925078388, 2162078206, 2614888103, 3248222580,
   3835390401, 4022224774, 264347078, 604807628,
   770255983, 1249150122, 1555081692, 1996064986,
   2554220882, 2821834349, 2952996808, 3210313671,
   3336571891, 3584528711, 113926993, 338241895,
   666307205, 773529912, 1294757372, 1396182291,
   1695183700, 1986661051, 2177026350, 2456956037,
   2730485921, 2820302411, 3259730800, 3345764771,
   3516065817, 3600352804, 4094571909, 275423344,
   430227734, 506948616, 659060556, 883997877,
   958139571, 1322822218, 1537002063, 1747873779,
   1955562222, 2024104815, 2227730452, 2361852424,
   2428436474, 2756734187, 3204031479, 3329325298]

/-- The eight 32-bit working variables of the compression function. -/
structure Sha256State where
  a : Nat
  b : Nat
  c : Nat
  d : Nat
  e : Nat
  f : Nat
  g : Nat
  h : Nat
deriving DecidableEq

def sha256Init : Sha256State :=
  ⟨1779033703, 3144134277, 1013904242, 2773480762,
   1359893119, 2600822924, 528734635, 1541459225⟩

/-- Big-endian 32-bit words from bytes. -/
def bytesToWords : List Nat → List Nat
  | b0 :: b1 :: b2 :: b3 :: rest =>
    (((b0 * 256 + b1) * 256 + b2) * 256 + b3) :: bytesToWords rest
  | _ => []

/-- Extend the 16-word block to the 64-word message schedule. -/
def scheduleExt : Nat → List Nat → List Nat
  | 0, w => w
  | t + 1, w =>
    let i := w.length
    let wi := w32 (smallSigma1 (w.getD (i - 2) 0) + w.getD (i - 7) 0 +
                   smallSigma0 (w.getD (i - 15) 0) + w.getD (i - 16) 0)
    scheduleExt t (w ++ [wi])

def sha256Round (st : Sha256State) (kw : Nat × Nat) : Sha256State :=
  let t1 := w32 (st.h + bigSigma1 st.e + chFn st.e st.f st.g + kw.1 + kw.2)
  let t2 := w32 (bigSigma0 st.a + majFn st.a st.b st.c)
  ⟨w32 (t1 + t2), st.a, st.b, st.c, w32 (st.d + t1), st.e, st.f, st.g⟩

def compressBlock (st : Sha256State) (block : List Nat) : Sha256State :=
  let w := scheduleExt 48 (bytesToWords block)
  let r := (shaK.zip w).foldl sha256Round st
  ⟨w32 (st.a + r.a), w32 (st.b + r.b), w32 (st.c + r.c), w32 (st.d + r.d),
   w32 (st.e + r.e), w32 (st.f + r.f), w32 (st.g + r.g), w32 (st.h + r.h)⟩

/-- Split into 64-byte blocks (fuel-driven so the kernel can reduce it). -/
def chunks64F : Nat → List Nat → List (List Nat)
  | 0, _ => []
  | _ + 1, [] => []
  | fuel + 1, l => l.take 64 :: chunks64F fuel (l.drop 64)

/-- FIPS 180-4 padding: `0x80`, zeros to 56 mod 64, 8-byte big-endian bit length. -/
def sha256Pad (msg : List Nat) : List Nat :=
  msg ++ 0x80 :: List.replicate ((64 - (msg.length + 9) % 64) % 64) 0 ++
    bytesBE 8 (8 * msg.length)

/-- SHA-256 digest (32 bytes) of a byte sequence. -/
def sha256 (msg : List Nat) : List Nat :=
  let padded := sha256Pad msg
  let st := (chunks64F padded.length padded).foldl compressBlock sha256Init
  bytesBE 4 st.a ++ bytesBE 4 st.b ++ bytesBE 4 st.c ++ bytesBE 4 st.d ++
  bytesBE 4 st.e ++ bytesBE 4 st.f ++ bytesBE 4 st.g ++ bytesBE 4 st.h

theorem length_sha256 (msg : List Nat) : (sha256 msg).length = 32 := by
  simp [sha256, length_bytesBE]

theorem sha256_lt (msg : List Nat) : ∀ b ∈ sha256 msg, b < 256 := by
  intro b hb
  simp only [sha256, List.mem_append] at hb
  rcases hb with ((((((h | h) | h) | h) | h) | h) | h) | h <;>
    exact bytesBE_lt _ _ b h

/-! ### JSON string quoting

Modelled from the spec: the byte-level string escaping is performed by the
external `fastjson` marshaller, whose source is not part of this repository;
the spec fixes it to "standard JSON string escaping (control characters,
quotes, backslashes ...)", "canonical and minimal". -/

/-- Standard JSON escaping of one character: quote, backslash and the
common control-character short forms escaped, other control characters as
`\u00XX`, everything else emitted verbatim. -/
def escapeChar (c : Char) : List Char :=
  if c = '"' then ['\\', '"']
  else if c = '\\' then ['\\', '\\']
  else if c = '\n' then ['\\', 'n']
  else if c = '\r' then ['\\', 'r']
  else if c = '\t' then ['\\', 't']
  else if c.toNat < 32 then
    ['\\', 'u', '0', '0', nibbleChar (c.toNat / 16), nibbleChar (c.toNat % 16)]
  else [c]

/-- A JSON string literal: escaped content between double quotes. -/
def jsonQuote (s : String) : String :=
  ⟨'"' :: s.data.foldr (fun c acc => escapeChar c ++ acc) ['"']⟩

/-! ### Event data model and canonical serializer (`event.go`) -/

/-- Go `time.Time` restricted to what `Serialize` reads: absolute seconds
since the Unix epoch plus a sub-second component in nanoseconds. -/
structure GoTime where
  sec : Int
  nsec : Nat
deriving DecidableEq

/-- Go `Time.Unix()`: whole seconds since the epoch; the sub-second
component is dropped. -/
def GoTime.unix (t : GoTime) : Int := t.sec

/-- The `Event` struct of `event.go`. `Tags` is kept at its serialized
shape, an ordered sequence of ordered string sequences (spec §3). -/
structure Event where
  ID : String
  PubKey : String
  CreatedAt : GoTime
  Kind : Int
  Tags : List (List String)
  Content : String
  Sig : String
deriving DecidableEq

/-- `fastjson` array marshalling: `[`, the items separated by `,`, `]`. -/
def joinComma : List String → String
  | [] => ""
  | [x] => x
  | x :: y :: rest => x ++ "," ++ joinComma (y :: rest)

def fastjsonArray (items : List String) : String :=
  "[" ++ joinComma items ++ "]"

/-- Modelled from the spec: `tagsToFastjsonArray` lives in the repository's
tag module, which is not under `src/`; the spec fixes its output to "a JSON
array of JSON arrays of JSON strings, preserving input order at both levels
exactly". -/
def tagsToFastjsonArray (tags : List (List String)) : String :=
  fastjsonArray (tags.map (fun t => fastjsonArray (t.map jsonQuote)))

/-- `Event.Serialize` (`event.go` lines 40-66): the fastjson array
`[0, pubkey, created_at, kind, tags, content]`, marshalled compactly.
`NewNumberInt` stores the decimal rendering of the integer. -/
def Event.Serialize (evt : Event) : String :=
  fastjsonArray
    [toString (0 : Int),
     jsonQuote evt.PubKey,
     toString evt.CreatedAt.unix,
     toString evt.Kind,
     tagsToFastjsonArray evt.Tags,
     jsonQuote evt.Content]

/-- The `[]byte` value returned by `Event.Serialize` (Go strings are UTF-8). -/
def serializeBytes (evt : Event) : List Nat := utf8Encode evt.Serialize

/-- `Event.GetID` (`event.go` lines 34-37): lower-case hex of the SHA-256
of the serialization. -/
def Event.GetID (evt : Event) : String := hexEncode (sha256 (serializeBytes evt))

/-! ### Spec-side JSON model (§4.1 of the spec, for comparison with the
source serializer) -/

/-- A JSON value, restricted to the shapes the spec's §4.1 mentions:
integers, strings, arrays. -/
inductive Json where
  | jnum (n : Int)
  | jstr (s : String)
  | jarr (elems : List Json)

/- Compact rendering: no insignificant whitespace, a comma between
elements, decimal integers, quoted and escaped strings. -/
mutual

def Json.render : Json → String
  | .jnum n => toString n
  | .jstr s => jsonQuote s
  | .jarr es => "[" ++ Json.renderSep es ++ "]"

def Json.renderSep : List Json → String
  | [] => ""
  | j :: rest => Json.render j ++ (if rest.isEmpty then "" else ",") ++ Json.renderSep rest

end

/-- The 6-element array the spec prescribes for an event: version marker 0,
author key string, whole-second timestamp, kind, tags as array of arrays of
strings in input order, content string. -/
def eventSpecJson (evt : Event) : Json :=
  .jarr [.jnum 0, .jstr evt.PubKey, .jnum evt.CreatedAt.sec, .jnum evt.Kind,
         .jarr (evt.Tags.map (fun t => .jarr (t.map .jstr))), .jstr evt.Content]

/-! ### BIP-340-style signature engine

Modelled from the spec: the `bip340` package is an external dependency
whose source is not part of this repository.  Spec §4.3 describes it as a
Schnorr scheme over "a single fixed elliptic curve", with 32-byte scalar
keys, 32-byte x-only public keys and 64-byte signatures.  The prime-order
cyclic group of that curve is modelled here as the additive group of
residues modulo its order `n` (every prime-order cyclic group is of this
shape), written with an explicit `% n`; `gen` is the fixed generator.  The
nonce is derived from the auxiliary randomness, the private key and the
message via the hash, per the spec's "deterministic-nonce-with-auxiliary-
randomness construction". -/

namespace Bip340

/-- Order of the secp256k1 group. -/
def n : Nat := 0xFFFFFFFFFFFFFFFFFFFFFFFFFFFFFFFEBAAEDCE6AF48A03BBFD25E8CD0364141

/-- The fixed generator (any fixed nonzero residue generates the
prime-order group). -/
def gen : Nat := 2

/-- Scalar multiplication of the generator: the discrete-exponential map
of the cyclic group. -/
def pubKeyOf (d : Nat) : Nat := d * gen % n

/-- `bip340.ParsePrivateKey`: spec §4.3/§7 — fails (`InvalidKey`) when the
key is "malformed or out of the valid scalar range"; otherwise the
32-byte scalar, in range `1 ≤ d < n`. -/
def parsePrivateKey (s : String) : Option Nat :=
  match hexDecode s with
  | none => none
  | some bs =>
    if bs.length = 32 then
      let d := toNatBE bs
      if 0 < d ∧ d < n then some d else none
    else none

/-- `bip340.ParsePublicKey`: spec §4.3 — fails (`InvalidPublicKey`) when
the key "cannot be parsed as a valid curve point per the scheme's x-only
public-key convention"; otherwise 32 bytes naming a group element. -/
def parsePublicKey (s : String) : Option Nat :=
  match hexDecode s with
  | none => none
  | some bs =>
    if bs.length = 32 ∧ toNatBE bs < n then some (toNatBE bs) else none

/-- `bip340.Sign`: spec §4.3 — nonce from auxiliary randomness, key and
digest; commitment `R = k·G`; challenge from `R`, `P` and the digest;
response `s = k + e·d`; 64-byte signature `R ‖ s`.  Fails when the derived
nonce is degenerate. -/
def sign (d : Nat) (hash aux : List Nat) : Option (List Nat) :=
  let pB := bytesBE 32 (pubKeyOf d)
  let k := toNatBE (sha256 (aux ++ bytesBE 32 d ++ hash)) % n
  if k = 0 then none
  else
    let r := k * gen % n
    let e := toNatBE (sha256 (bytesBE 32 r ++ pB ++ hash)) % n
    some (bytesBE 32 r ++ bytesBE 32 ((k + e * d) % n))

/-- `bip340.Verify`: spec §4.3 — split the 64-byte signature into the
commitment `R` (first 32 bytes) and the response `s` (last 32 bytes),
recompute the challenge `e` from `R`, `P` and the digest, and check the
verification equation `s·G = R + e·P`; a boolean result, `false` for
well-formed but cryptographically invalid signatures. -/
def verify (p : Nat) (hash : List Nat) (sig : List Nat) : Bool :=
  if n ≤ toNatBE (sig.take 32) ∨ n ≤ toNatBE (sig.drop 32) then false
  else
    toNatBE (sig.drop 32) * gen % n ==
      (toNatBE (sig.take 32) +
       toNatBE (sha256 (bytesBE 32 (toNatBE (sig.take 32)) ++ bytesBE 32 p ++ hash)) %
         n * p % n) % n

end Bip340

/-! ### Signing and verification (`event.go`) -/

/-- `Event.CheckSignature` (`event.go` lines 71-91), as Go's
`(bool, error)` pair: parse the public key, hex-decode the signature,
require 64 bytes, then verify against the digest recomputed as the SHA-256
of the serialization. -/
def Event.CheckSignature (evt : Event) : Bool × Option String :=
  match Bip340.parsePublicKey evt.PubKey with
  | none => (false, some ("Event has invalid pubkey '" ++ evt.PubKey ++ "'"))
  | some pubkey =>
    match hexDecode evt.Sig with
    | none => (false, some "signature is invalid hex")
    | some s =>
      if s.length ≠ 64 then
        (false, some ("signature must be 64 bytes, not " ++ toString s.length))
      else
        (Bip340.verify pubkey (sha256 (serializeBytes evt)) s, none)

/-- `Event.Sign` (`event.go` lines 94-112).  The receiver mutation is made
explicit: the returned event is the post-call receiver.  `rnd` models the
`crypto/rand` source: `some bytes` on success, `none` when it fails; the
code ignores the error returned by `rand.Read`, so on failure the
zero-initialized `aux` buffer is used as-is.  The Go computes the digest
`h` once (line 95) and uses that one value both as the signed message and
as the stored `ID`; the pure expression is repeated here verbatim. -/
def Event.Sign (evt : Event) (privateKey : String) (rnd : Option (List Nat)) :
    Event × Option String :=
  match Bip340.parsePrivateKey privateKey with
  | none =>
    (evt, some ("Sign called with invalid private key '" ++ privateKey ++
                "': invalid key"))
  | some d =>
    match Bip340.sign d (sha256 (serializeBytes evt))
        (rnd.getD (List.replicate 32 0)) with
    | none => (evt, some "signing failed")
    | some sigBytes =>
      ({ evt with ID := hexEncode (sha256 (serializeBytes evt)),
                  Sig := hexEncode sigBytes }, none)

/-! ### Helper lemmas -/

theorem take_len_append {α : Type} (a b : List α) : (a ++ b).take a.length = a := by
  induction a with
  | nil => rfl
  | cons x xs ih => simp [ih]

theorem drop_len_append {α : Type} (a b : List α) : (a ++ b).drop a.length = b := by
  induction a with
  | nil => rfl
  | cons x xs ih => simp [ih]

theorem serializeBytes_update_id_sig (evt : Event) (i s : String) :
    serializeBytes { evt with ID := i, Sig := s } = serializeBytes evt := rfl

theorem serializeBytes_update_id (evt : Event) (i : String) :
    serializeBytes { evt with ID := i } = serializeBytes evt := rfl

theorem n_pos : 0 < Bip340.n := by norm_num [Bip340.n]

theorem n_lt_pow : Bip340.n < 256 ^ 32 := by norm_num [Bip340.n]

theorem toNatBE_bytesBE_of_lt {x : Nat} (hx : x < Bip340.n) :
    toNatBE (bytesBE 32 x) = x := by
  rw [toNatBE_bytesBE, Nat.mod_eq_of_lt (lt_trans hx n_lt_pow)]

theorem parsePublicKey_hexEncode {x : Nat} (hx : x < Bip340.n) :
    Bip340.parsePublicKey (hexEncode (bytesBE 32 x)) = some x := by
  unfold Bip340.parsePublicKey
  rw [hexDecode_hexEncode _ (bytesBE_lt 32 x)]
  simp only []
  rw [if_pos ⟨length_bytesBE 32 x, by rw [toNatBE_bytesBE_of_lt hx]; exact hx⟩]
  rw [toNatBE_bytesBE_of_lt hx]

/-- The Schnorr verification equation holds for an honestly produced
response, in the cyclic group written as residues mod `nn`:
`s·g = R + e·P` for `s = k + e·d`, `R = k·g`, `P = d·g`. -/
theorem schnorr_equation (k e d g nn : Nat) :
    (k + e * d) % nn * g % nn = (k * g % nn + e * (d * g % nn) % nn) % nn := by
  have l1 : (k + e * d) % nn * g % nn = (k + e * d) * g % nn :=
    (Nat.mod_modEq (k + e * d) nn).mul_right g
  have t1 : e * (d * g % nn) ≡ e * (d * g) [MOD nn] :=
    (Nat.mod_modEq (d * g) nn).mul_left e
  have t2 : e * (d * g % nn) % nn ≡ e * (d * g) [MOD nn] :=
    (Nat.mod_modEq (e * (d * g % nn)) nn).trans t1
  have t3 : k * g % nn + e * (d * g % nn) % nn ≡ k * g + e * (d * g) [MOD nn] :=
    Nat.ModEq.add (Nat.mod_modEq (k * g) nn) t2
  rw [l1, t3]
  congr 1
  ring

/-- Success characterization of `Event.Sign`: the private key parsed, the
scheme signed the digest of the serialization, and the receiver got `ID`
and `Sig` set from that one digest. -/
theorem Sign_success (evt : Event) (priv : String) (rnd : Option (List Nat))
    (hok : (evt.Sign priv rnd).2 = none) :
    ∃ d sb, Bip340.parsePrivateKey priv = some d ∧
      Bip340.sign d (sha256 (serializeBytes evt)) (rnd.getD (List.replicate 32 0)) = some sb ∧
      (evt.Sign priv rnd).1 =
        { evt with ID := hexEncode (sha256 (serializeBytes evt)), Sig := hexEncode sb } := by
  cases hp : Bip340.parsePrivateKey priv with
  | none => simp only [Event.Sign, hp] at hok; simp at hok
  | some d =>
    cases hs : Bip340.sign d (sha256 (serializeBytes evt))
        (rnd.getD (List.replicate 32 0)) with
    | none => simp only [Event.Sign, hp, hs] at hok; simp at hok
    | some sb =>
      refine ⟨d, sb, rfl, hs, ?_⟩
      simp only [Event.Sign, hp, hs]

/-- Failure characterization of `Event.Sign`: the receiver is unchanged. -/
theorem Sign_failure (evt : Event) (priv : String) (rnd : Option (List Nat))
    (hfail : (evt.Sign priv rnd).2 ≠ none) :
    (evt.Sign priv rnd).1 = evt := by
  cases hp : Bip340.parsePrivateKey priv with
  | none => simp only [Event.Sign, hp]
  | some d =>
    cases hs : Bip340.sign d (sha256 (serializeBytes evt))
        (rnd.getD (List.replicate 32 0)) with
    | none => simp only [Event.Sign, hp, hs]
    | some sb => simp only [Event.Sign, hp, hs] at hfail; simp at hfail

/-- `Event.CheckSignature` on well-formed inputs: the boolean is the
scheme's verdict on the recomputed digest, and the error is nil. -/
theorem CheckSignature_wellFormed (evt : Event) (pk : Nat) (sb : List Nat)
    (hpk : Bip340.parsePublicKey evt.PubKey = some pk)
    (hsig : hexDecode evt.Sig = some sb) (hlen : sb.length = 64) :
    evt.CheckSignature = (Bip340.verify pk (sha256 (serializeBytes evt)) sb, none) := by
  simp [Event.CheckSignature, hpk, hsig, hlen]

/-- Characterization of `Bip340.sign` on success. -/
theorem Bip340.sign_success (d : Nat) (hash aux : List Nat) (sb : List Nat)
    (h : Bip340.sign d hash aux = some sb) :
    toNatBE (sha256 (aux ++ bytesBE 32 d ++ hash)) % Bip340.n ≠ 0 ∧
    sb = bytesBE 32 (toNatBE (sha256 (aux ++ bytesBE 32 d ++ hash)) % Bip340.n * Bip340.gen % Bip340.n) ++
      bytesBE 32 ((toNatBE (sha256 (aux ++ bytesBE 32 d ++ hash)) % Bip340.n +
        toNatBE (sha256 (bytesBE 32 (toNatBE (sha256 (aux ++ bytesBE 32 d ++ hash)) % Bip340.n * Bip340.gen % Bip340.n) ++
          bytesBE 32 (Bip340.pubKeyOf d) ++ hash)) % Bip340.n * d) % Bip340.n) := by
  unfold Bip340.sign at h
  by_cases hk : toNatBE (sha256 (aux ++ bytesBE 32 d ++ hash)) % Bip340.n = 0
  · rw [if_pos hk] at h; simp at h
  · rw [if_neg hk] at h
    exact ⟨hk, (Option.some_inj.mp h).symm⟩

theorem render_jnum (n : Int) : (Json.jnum n).render = toString n := by
  simp [Json.render]

theorem render_jstr (s : String) : (Json.jstr s).render = jsonQuote s := by
  simp [Json.render]

theorem render_jarr (js : List Json) :
    (Json.jarr js).render = "[" ++ Json.renderSep js ++ "]" := by
  simp [Json.render]

theorem joinComma_map_render (js : List Json) :
    joinComma (js.map Json.render) = Json.renderSep js := by
  induction js with
  | nil => rfl
  | cons j rest ih =>
    cases rest with
    | nil => simp [joinComma, Json.renderSep]
    | cons j2 rest2 =>
      simp only [List.map_cons, joinComma] at ih ⊢
      rw [ih]
      simp [Json.renderSep]

theorem fastjsonArray_eq_render (js : List Json) :
    fastjsonArray (js.map Json.render) = (Json.jarr js).render := by
  rw [fastjsonArray, joinComma_map_render, render_jarr]

theorem tagsToFastjsonArray_render (tags : List (List String)) :
    tagsToFastjsonArray tags =
      (Json.jarr (tags.map (fun t => Json.jarr (t.map Json.jstr)))).render := by
  rw [tagsToFastjsonArray]
  have h : tags.map (fun t => fastjsonArray (t.map jsonQuote)) =
      (tags.map (fun t => Json.jarr (t.map Json.jstr))).map Json.render := by
    rw [List.map_map]
    refine List.map_congr_left (fun t _ => ?_)
    have ht : t.map jsonQuote = (t.map Json.jstr).map Json.render := by
      rw [List.map_map]
      exact List.map_congr_left (fun s _ => (render_jstr s).symm)
    rw [Function.comp_apply, ht, fastjsonArray_eq_render]
  rw [h, fastjsonArray_eq_render]

/-- `Bip340.verify` on a signature assembled from in-range `r` and `s`:
the encodings round-trip, so the verdict is exactly the verification
equation. -/
theorem verify_RS (p : Nat) (hash : List Nat) (r s : Nat)
    (hr : r < Bip340.n) (hs : s < Bip340.n)
    (heq : s * Bip340.gen % Bip340.n =
      (r + toNatBE (sha256 (bytesBE 32 r ++ bytesBE 32 p ++ hash)) %
        Bip340.n * p % Bip340.n) % Bip340.n) :
    Bip340.verify p hash (bytesBE 32 r ++ bytesBE 32 s) = true := by
  have htake : (bytesBE 32 r ++ bytesBE 32 s).take 32 = bytesBE 32 r := by
    have h := take_len_append (bytesBE 32 r) (bytesBE 32 s)
    rwa [length_bytesBE] at h
  have hdrop : (bytesBE 32 r ++ bytesBE 32 s).drop 32 = bytesBE 32 s := by
    have h := drop_len_append (bytesBE 32 r) (bytesBE 32 s)
    rwa [length_bytesBE] at h
  unfold Bip340.verify
  rw [htake, hdrop, toNatBE_bytesBE_of_lt hr, toNatBE_bytesBE_of_lt hs]
  rw [if_neg (by push_neg; exact ⟨hr, hs⟩)]
  simp only [beq_iff_eq]
  exact heq

/-- Completeness of the modelled scheme: a signature produced by
`Bip340.sign` verifies against the corresponding public key and the same
digest. -/
theorem verify_sign (d : Nat) (hash aux : List Nat) (sb : List Nat)
    (hs : Bip340.sign d hash aux = some sb) :
    Bip340.verify (Bip340.pubKeyOf d) hash sb = true := by
  obtain ⟨hk, hsb⟩ := Bip340.sign_success d hash aux sb hs
  rw [hsb]
  refine verify_RS _ _ _ _ (Nat.mod_lt _ n_pos) (Nat.mod_lt _ n_pos) ?_
  unfold Bip340.pubKeyOf
  exact schnorr_equation _ _ _ _ _

/-! ### Concrete values used to instantiate the theorems -/

/-- The spec's §8 example vector: zero author key, epoch time, kind 1,
no tags, empty content. -/
def zeroEvt : Event :=
  { ID := "", Sig := "",
    PubKey := "0000000000000000000000000000000000000000000000000000000000000000",
    CreatedAt := ⟨0, 0⟩, Kind := 1, Tags := [], Content := "" }

def privDemo : String :=
  "0000000000000000000000000000000000000000000000000000000000000001"

def auxDemo : List Nat := List.replicate 32 7

/-- A well-formed unsigned event whose author key matches `privDemo`. -/
def evtDemo : Event :=
  { ID := "", Sig := "",
    PubKey := hexEncode (bytesBE 32 (Bip340.pubKeyOf 1)),
    CreatedAt := ⟨1700000000, 500⟩, Kind := 1, Tags := [["t", "x"]],
    Content := "hi" }

/-- `evtDemo` after a successful `Sign`. -/
def evtSigned : Event := (evtDemo.Sign privDemo (some auxDemo)).1

/-- `evtSigned` with its `ID` field overwritten by a digest that is not
the hash of its serialization. -/
def evtTampered : Event :=
  { evtSigned with
    ID := "ffffffffffffffffffffffffffffffffffffffffffffffffffffffffffffffff" }

/-- A well-formed event whose signature decodes to only 63 bytes. -/
def evtBadSig : Event :=
  { evtDemo with Sig := String.mk (List.replicate 126 '0') }

/-- A well-formed event with a syntactically valid 64-byte signature. -/
def evtWellSig : Event :=
  { evtDemo with Sig := String.mk (List.replicate 128 '0') }

/-- The digest-source the claim describes for `CheckSignature`: the
signature verified against the author key and the raw bytes of the
identifier field as currently held.  (Stated only to be compared with the
code, which recomputes the digest from the serialization instead.) -/
def verifiesAgainstStoredID (evt : Event) : Bool :=
  match Bip340.parsePublicKey evt.PubKey, hexDecode evt.ID, hexDecode evt.Sig with
  | some pk, some idBytes, some sb => Bip340.verify pk idBytes sb
  | _, _, _ => false

theorem mem_hexEncodeChars (bs : List Nat) :
    ∀ c ∈ hexEncodeChars bs, ∃ v, v < 16 ∧ c = nibbleChar v := by
  induction bs with
  | nil => intro c hc; simp [hexEncodeChars] at hc
  | cons b rest ih =>
    intro c hc
    have hc' : c ∈ nibbleChar (b / 16 % 16) :: nibbleChar (b % 16) :: hexEncodeChars rest := hc
    rcases List.mem_cons.mp hc' with h1 | h2
    · exact ⟨b / 16 % 16, Nat.mod_lt _ (by norm_num), h1⟩
    · rcases List.mem_cons.mp h2 with h3 | h4
      · exact ⟨b % 16, Nat.mod_lt _ (by norm_num), h3⟩
      · exact ih c h4

/-- A lower-case hexadecimal digit: a decimal digit or a letter from
`a` through `f`. -/
def isLowerHexDigit (c : Char) : Bool :=
  c.isDigit || ('a' ≤ c && c ≤ 'f')

theorem nibbleChar_isLowerHexDigit (v : Nat) (h : v < 16) :
    isLowerHexDigit (nibbleChar v) = true := by
  interval_cases v <;> decide

/-! ### The claims -/

/-- C1: For every event, Serialize returns a compact JSON array (no
insignificant whitespace) of exactly 6 positional elements in this fixed
order: the integer literal 0, the author public key as a JSON string, the
created-at timestamp as a JSON integer of whole seconds since the Unix
epoch (truncating any sub-second component), the kind as a JSON integer,
the tags as a JSON array of arrays of strings preserving input order at
both levels, and the content as a JSON string with standard JSON escaping.
Stated as: the source serializer's output is exactly the compact rendering
of that six-element JSON array (`eventSpecJson`), whose timestamp entry is
the whole-seconds field only. -/
theorem serialize_spec_array (evt : Event) : evt.Serialize = (eventSpecJson evt).render := by
  have hlist : [toString (0 : Int), jsonQuote evt.PubKey, toString evt.CreatedAt.unix,
      toString evt.Kind, tagsToFastjsonArray evt.Tags, jsonQuote evt.Content] =
      ([Json.jnum 0, Json.jstr evt.PubKey, Json.jnum evt.CreatedAt.sec,
        Json.jnum evt.Kind,
        Json.jarr (evt.Tags.map (fun t => Json.jarr (t.map Json.jstr))),
        Json.jstr evt.Content]).map Json.render := by
    simp only [List.map_cons, List.map_nil, render_jnum, render_jstr,
      tagsToFastjsonArray_render, GoTime.unix]
  rw [Event.Serialize, hlist, fastjsonArray_eq_render, eventSpecJson]

/-- C2: For every event, the computed identifier (GetID) equals the
SHA-256 hash of the event's canonical serialization, hex-encoded in lower
case, and is exactly 64 hexadecimal characters long. -/
theorem getID_hex_sha256 (evt : Event) :
    evt.GetID = hexEncode (sha256 (serializeBytes evt)) ∧
    evt.GetID.length = 64 ∧
    ∀ c ∈ evt.GetID.data, isLowerHexDigit c = true := by
  refine ⟨rfl, ?_, ?_⟩
  · show (hexEncodeChars (sha256 (serializeBytes evt))).length = 64
    rw [length_hexEncodeChars, length_sha256]
  · intro c hc
    obtain ⟨v, hv, hc⟩ := mem_hexEncodeChars _ c hc
    exact hc ▸ nibbleChar_isLowerHexDigit v hv

/-- Witness for C2 at the example-vector event: its identifier is the hex
SHA-256 of its serialization, 64 characters, and its first digit `'2'` is
a lower-case hex digit. -/
theorem getID_hex_sha256_witness :
    zeroEvt.GetID = hexEncode (sha256 (serializeBytes zeroEvt)) ∧
    zeroEvt.GetID.length = 64 ∧ isLowerHexDigit '2' = true :=
  ⟨(getID_hex_sha256 zeroEvt).1, (getID_hex_sha256 zeroEvt).2.1,
   (getID_hex_sha256 zeroEvt).2.2 '2' (by decide)⟩

/-- C8: The example vector: for the event with the 64-zero-hex author key,
created-at 0, kind 1, no tags and empty content, Serialize returns exactly
the compact JSON array shown, and the identifier is the SHA-256 of that
exact byte string. -/
theorem golden_vector :
    zeroEvt.Serialize =
      "[0,\"0000000000000000000000000000000000000000000000000000000000000000\",0,1,[],\"\"]" ∧
    serializeBytes zeroEvt =
      utf8Encode "[0,\"0000000000000000000000000000000000000000000000000000000000000000\",0,1,[],\"\"]" ∧
    zeroEvt.GetID =
      hexEncode (sha256 (utf8Encode "[0,\"0000000000000000000000000000000000000000000000000000000000000000\",0,1,[],\"\"]")) := by
  refine ⟨by decide, by decide, by decide⟩

/-- C9: Serialization (and hence the identifier) depends only on the
public key, the created-at time, the kind, the tags and the content; two
events agreeing on those but with arbitrary `ID` and `Sig` fields
serialize and hash identically. -/
theorem serialize_ignores_id_sig (e1 e2 : Event)
    (hpk : e1.PubKey = e2.PubKey) (hca : e1.CreatedAt = e2.CreatedAt)
    (hk : e1.Kind = e2.Kind) (ht : e1.Tags = e2.Tags) (hc : e1.Content = e2.Content) :
    e1.Serialize = e2.Serialize ∧ e1.GetID = e2.GetID := by
  have hs : e1.Serialize = e2.Serialize := by
    rw [Event.Serialize, Event.Serialize, hpk, hca, hk, ht, hc]
  exact ⟨hs, by rw [Event.GetID, Event.GetID, serializeBytes, serializeBytes, hs]⟩

/-- Witness for C9: overwriting `ID` and `Sig` leaves the serialization
and identifier unchanged. -/
theorem serialize_ignores_id_sig_witness :
    ({ evtDemo with ID := "aaaa", Sig := "bbbb" } : Event).Serialize = evtDemo.Serialize ∧
    ({ evtDemo with ID := "aaaa", Sig := "bbbb" } : Event).GetID = evtDemo.GetID :=
  serialize_ignores_id_sig _ _ rfl rfl rfl rfl rfl

/-- C10: For every malformed private key, the error returned by Sign
contains the private key string itself verbatim in its message. -/
theorem sign_error_contains_key (evt : Event) (priv : String) (rnd : Option (List Nat))
    (h : Bip340.parsePrivateKey priv = none) :
    ∃ pre post, (evt.Sign priv rnd).2 = some (pre ++ priv ++ post) := by
  refine ⟨"Sign called with invalid private key '", "': invalid key", ?_⟩
  simp only [Event.Sign, h]

/-- Witness for C10: signing with the malformed key `"zz"` produces an
error message embedding `"zz"`. -/
theorem sign_error_contains_key_witness :
    ∃ pre post, (evtDemo.Sign "zz" (some auxDemo)).2 = some (pre ++ "zz" ++ post) :=
  sign_error_contains_key evtDemo "zz" (some auxDemo) (by decide)

/-- C3: For every valid private key and every well-formed event — in
particular one whose author public key is the one belonging to that
private key — Sign followed by CheckSignature on the resulting event
returns `(true, nil)`. -/
theorem sign_roundtrip (evt : Event) (priv : String) (rnd : Option (List Nat)) (d : Nat)
    (hd : Bip340.parsePrivateKey priv = some d)
    (hpk : evt.PubKey = hexEncode (bytesBE 32 (Bip340.pubKeyOf d)))
    (hok : (evt.Sign priv rnd).2 = none) :
    (evt.Sign priv rnd).1.CheckSignature = (true, none) := by
  obtain ⟨d', sb, hd', hs, hres⟩ := Sign_success evt priv rnd hok
  rw [hd] at hd'
  injection hd' with hdd
  subst hdd
  have hserEq : serializeBytes (evt.Sign priv rnd).1 = serializeBytes evt := by
    rw [hres]
    exact serializeBytes_update_id_sig evt _ _
  have hP : Bip340.pubKeyOf d < Bip340.n := Nat.mod_lt _ n_pos
  have hpk' : Bip340.parsePublicKey (evt.Sign priv rnd).1.PubKey =
      some (Bip340.pubKeyOf d) := by
    rw [hres]
    show Bip340.parsePublicKey evt.PubKey = _
    rw [hpk]
    exact parsePublicKey_hexEncode hP
  obtain ⟨hk, hsb⟩ := Bip340.sign_success _ _ _ _ hs
  have hsbLt : ∀ b ∈ sb, b < 256 := by
    rw [hsb]
    intro b hb
    rcases List.mem_append.mp hb with h1 | h2
    · exact bytesBE_lt _ _ b h1
    · exact bytesBE_lt _ _ b h2
  have hsig' : hexDecode (evt.Sign priv rnd).1.Sig = some sb := by
    rw [hres]
    show hexDecode (hexEncode sb) = some sb
    exact hexDecode_hexEncode sb hsbLt
  have hlen : sb.length = 64 := by
    rw [hsb, List.length_append, length_bytesBE, length_bytesBE]
  rw [CheckSignature_wellFormed _ _ _ hpk' hsig' hlen, hserEq,
      verify_sign d _ _ sb hs]

/-- Witness for C3: the demo event, whose author key matches `privDemo`,
signed with `privDemo`, passes CheckSignature. -/
theorem sign_roundtrip_witness : evtSigned.CheckSignature = (true, none) :=
  sign_roundtrip evtDemo privDemo (some auxDemo) 1 (by decide) rfl (by decide)

/-- C4: Sign either succeeds and sets both the identifier and the
signature from the one digest of the pre-call serialization (the digest
signed is the digest stored), or it fails and returns the receiver
unchanged. -/
theorem sign_atomic (evt : Event) (priv : String) (rnd : Option (List Nat)) :
    ((evt.Sign priv rnd).2 ≠ none → (evt.Sign priv rnd).1 = evt) ∧
    ((evt.Sign priv rnd).2 = none →
      ∃ d sb, Bip340.parsePrivateKey priv = some d ∧
        Bip340.sign d (sha256 (serializeBytes evt)) (rnd.getD (List.replicate 32 0)) = some sb ∧
        (evt.Sign priv rnd).1 =
          { evt with ID := hexEncode (sha256 (serializeBytes evt)),
                     Sig := hexEncode sb }) :=
  ⟨Sign_failure evt priv rnd, Sign_success evt priv rnd⟩

/-- Witness for C4 (failure branch): a malformed key leaves the event
untouched. -/
theorem sign_atomic_witness : (evtDemo.Sign "zz" (some auxDemo)).1 = evtDemo :=
  (sign_atomic evtDemo "zz" (some auxDemo)).1 (by decide)

/-- C5 counterexample: on `evtTampered` — a correctly signed event whose
`ID` field was afterwards overwritten — CheckSignature still answers
`true`, yet the signature does **not** verify against the digest given by
the stored identifier's raw bytes.  So CheckSignature's verdict is not
"valid iff it verifies against the identifier actually present". -/
theorem checkSignature_stored_id_counterexample :
    ¬ ((evtTampered.CheckSignature).1 = verifiesAgainstStoredID evtTampered) := by
  decide

/-- C5 amended: CheckSignature judges the signature valid iff it verifies
against the author public key and the digest **recomputed as the SHA-256
of the event's serialization**; the identifier field actually present on
the event plays no role in the verdict. -/
theorem checkSignature_recomputed_digest (evt : Event) (pk : Nat) (sb : List Nat)
    (hpk : Bip340.parsePublicKey evt.PubKey = some pk)
    (hsig : hexDecode evt.Sig = some sb) (hlen : sb.length = 64) :
    evt.CheckSignature = (Bip340.verify pk (sha256 (serializeBytes evt)) sb, none) ∧
    ∀ id', ({ evt with ID := id' } : Event).CheckSignature = evt.CheckSignature := by
  refine ⟨CheckSignature_wellFormed evt pk sb hpk hsig hlen, fun id' => ?_⟩
  rw [CheckSignature_wellFormed evt pk sb hpk hsig hlen,
      CheckSignature_wellFormed ({ evt with ID := id' } : Event) pk sb hpk hsig hlen,
      serializeBytes_update_id]

/-- Witness for C5's amended statement at a concrete well-formed event. -/
theorem checkSignature_recomputed_digest_witness :
    evtWellSig.CheckSignature =
      (Bip340.verify (Bip340.pubKeyOf 1) (sha256 (serializeBytes evtWellSig))
        (List.replicate 64 0), none) ∧
    ({ evtWellSig with ID := "00" } : Event).CheckSignature = evtWellSig.CheckSignature :=
  ⟨(checkSignature_recomputed_digest evtWellSig (Bip340.pubKeyOf 1) (List.replicate 64 0)
      (by decide) (by decide) (by decide)).1,
   (checkSignature_recomputed_digest evtWellSig (Bip340.pubKeyOf 1) (List.replicate 64 0)
      (by decide) (by decide) (by decide)).2 "00"⟩

/-- C6: CheckSignature returns an error exactly when the public key cannot
be parsed, the signature is not valid hex, or the decoded signature is not
exactly 64 bytes; on well-formed inputs it returns the scheme's boolean
verdict with a nil error (the function is total — no panic). -/
theorem checkSignature_error_conditions (evt : Event) :
    ((evt.CheckSignature).2 ≠ none ↔
      (Bip340.parsePublicKey evt.PubKey = none ∨ hexDecode evt.Sig = none ∨
       ∃ sb, hexDecode evt.Sig = some sb ∧ sb.length ≠ 64)) ∧
    (∀ pk sb, Bip340.parsePublicKey evt.PubKey = some pk → hexDecode evt.Sig = some sb →
      sb.length = 64 →
      evt.CheckSignature = (Bip340.verify pk (sha256 (serializeBytes evt)) sb, none)) := by
  constructor
  · cases hpk : Bip340.parsePublicKey evt.PubKey with
    | none => simp [Event.CheckSignature, hpk]
    | some pk =>
      cases hsg : hexDecode evt.Sig with
      | none => simp [Event.CheckSignature, hpk, hsg]
      | some sb =>
        by_cases hlen : sb.length = 64 <;>
          simp [Event.CheckSignature, hpk, hsg, hlen]
  · intro pk sb hpk hsg hlen
    simp [Event.CheckSignature, hpk, hsg, hlen]

/-- Witness for C6: a 63-byte signature yields an error; a well-formed
64-byte signature yields the scheme's verdict with a nil error. -/
theorem checkSignature_error_conditions_witness :
    (evtBadSig.CheckSignature).2 ≠ none ∧
    evtWellSig.CheckSignature =
      (Bip340.verify (Bip340.pubKeyOf 1) (sha256 (serializeBytes evtWellSig))
        (List.replicate 64 0), none) :=
  ⟨(checkSignature_error_conditions evtBadSig).1.mpr
      (Or.inr (Or.inr ⟨List.replicate 63 0, by decide, by decide⟩)),
   (checkSignature_error_conditions evtWellSig).2 (Bip340.pubKeyOf 1)
      (List.replicate 64 0) (by decide) (by decide) (by decide)⟩

/-- C7: the claim says a failing secure random source makes Sign fail with
a RandomnessUnavailable error; the code (`event.go` line 103) ignores the
error returned by `rand.Read` and proceeds with the zero-filled auxiliary
buffer.  At the failing input — a valid key, an arbitrary event and a
failed randomness read — Sign succeeds and stores a signature. -/
theorem sign_randomness_failure_ignored :
    (evtDemo.Sign privDemo none).2 = none ∧ (evtDemo.Sign privDemo none).1.Sig ≠ "" := by
  decide

end Nostr
